import Mathlib

/-!
# UK Rails Dashboard — verification of the data pipeline

Shallow embedding of the data-handling core of `uk_Rails_DS.py`:
the loader/transformer `load_data` (missing-value fill, date parsing,
timestamp combination, feature derivation, IQR outlier removal) and the
filter/aggregation operations backing each view
(`create_interactive_filters`'s filtering section, value-count rankings,
group-by sums).  Tables are lists of row records, prices are rationals,
missing CSV fields are `Option`s.
-/

namespace UKRails

/-! ## String parsing helpers

The source parses dates with `pd.to_datetime(..., format='mixed')` over the
two textual forms present in the data (`YYYY-MM-DD` and `MM/DD/YYYY`), and
times with `pd.to_datetime(dateStr + ' ' + timeStr, errors='coerce')`.
We model the parsers character-by-character so they evaluate inside the
kernel. -/

/-- Split a character list at every occurrence of the separator `c`. -/
def splitOnChar (c : Char) : List Char → List (List Char)
  | [] => [[]]
  | x :: xs =>
    match splitOnChar c xs with
    | [] => if x = c then [[], [x]] else [[x]]
    | r :: rs => if x = c then [] :: r :: rs else (x :: r) :: rs

/-- All characters are decimal digits and the list is nonempty. -/
def allDigits (l : List Char) : Bool :=
  !l.isEmpty && l.all Char.isDigit

/-- Interpret a digit list as a natural number (most significant first). -/
def charsToNat (l : List Char) : Nat :=
  l.foldl (fun n c => 10 * n + (c.toNat - 48)) 0

/-- A calendar date, as produced by date parsing. -/
structure Date where
  year : Nat
  month : Nat
  day : Nat
deriving DecidableEq, Repr

/-- A time of day, as produced by time parsing. -/
structure Time where
  hour : Nat
  minute : Nat
  second : Nat
deriving DecidableEq, Repr

/-- A full timestamp: a journey date combined with a time of day. -/
structure DateTime where
  date : Date
  time : Time
deriving DecidableEq, Repr

/-- Build a date from year/month/day digit groups, validating ranges. -/
def mkDate (y m d : List Char) : Option Date :=
  if allDigits y && allDigits m && allDigits d then
    let mm := charsToNat m
    let dd := charsToNat d
    if 1 ≤ mm && mm ≤ 12 && 1 ≤ dd && dd ≤ 31 then
      some ⟨charsToNat y, mm, dd⟩
    else none
  else none

/-- Model of `pd.to_datetime(s, format='mixed')` restricted to the two date
forms the dataset uses: ISO `YYYY-MM-DD`, or US `MM/DD/YYYY`.  Returns
`none` when the value matches neither form. -/
def parseDate (s : String) : Option Date :=
  match splitOnChar '-' s.data with
  | [y, m, d] => mkDate y m d
  | _ =>
    match splitOnChar '/' s.data with
    | [m, d, y] => mkDate y m d
    | _ => none

/-- Build a time of day from digit groups, validating ranges. -/
def mkTime (h m s : List Char) : Option Time :=
  if allDigits h && allDigits m && allDigits s then
    let hh := charsToNat h
    let mm := charsToNat m
    let ss := charsToNat s
    if hh ≤ 23 && mm ≤ 59 && ss ≤ 59 then some ⟨hh, mm, ss⟩ else none
  else none

/-- Model of the time-of-day part of
`pd.to_datetime(date + ' ' + time, errors='coerce')`: accepts `HH:MM`
or `HH:MM:SS` clock strings, `none` on anything else. -/
def parseTime (s : String) : Option Time :=
  match splitOnChar ':' s.data with
  | [h, m] => mkTime h m ['0']
  | [h, m, sec] => mkTime h m sec
  | _ => none

/-! ## Data model -/

/-- One row of the raw CSV, named after the source columns.  `Railcard` and
`Reason for Delay` may be missing (NaN) in the input, hence `Option`. -/
structure RawRow where
  purchaseDateRaw : String
  journeyDateRaw : String
  departureTimeRaw : String
  arrivalTimeRaw : String
  actualArrivalTimeRaw : String
  departureStation : String
  arrivalDestination : String
  railcard : Option String
  reasonForDelay : Option String
  ticketClass : String
  ticketType : String
  purchaseType : String
  journeyStatus : String
  price : ℚ
deriving DecidableEq, Repr

/-- One row of the cleaned table produced by `load_data`: filled
categoricals, parsed dates, combined timestamps, and the derived columns
`Route`, `Departure Hour`, `Delay in Mins`.  Timestamp-derived fields are
`Option`s because `errors='coerce'` degrades parse failures to NaT. -/
structure CleanRow where
  purchaseDate : Option Date
  journeyDate : Option Date
  departureDatetime : Option DateTime
  arrivalDatetime : Option DateTime
  actualArrivalDatetime : Option DateTime
  departureStation : String
  arrivalDestination : String
  railcard : String
  reasonForDelay : String
  ticketClass : String
  ticketType : String
  purchaseType : String
  journeyStatus : String
  price : ℚ
  route : String
  departureHour : Option Nat
  delayInMins : Option ℚ
deriving DecidableEq, Repr

/-- Load-time fatal error: a purchase/journey date matching neither
accepted form, with the row index, column name and raw text. -/
inductive LoadError where
  | malformedDate (row : Nat) (field : String) (raw : String)
deriving DecidableEq, Repr

/-! ## The loader/transformer (`load_data`, lines 13–56) -/

/-- Combine an (already parsed) journey date with a time-of-day string,
as `pd.to_datetime(df['Date of Journey'].astype(str) + ' ' + timeStr,
errors='coerce')` does: the result is defined only when both parts are. -/
def combineDatetime (d : Option Date) (timeRaw : String) : Option DateTime :=
  match d, parseTime timeRaw with
  | some dd, some tt => some ⟨dd, tt⟩
  | _, _ => none

/-- A time of day in minutes since midnight, as a rational. -/
def timeToMinutes (t : Time) : ℚ :=
  60 * t.hour + t.minute + (t.second : ℚ) / 60

/-- Cleaning and feature engineering for one row (`load_data` steps 1–3):
fill missing `Railcard`/`Reason for Delay`, parse the two date columns,
combine the journey date with the three time columns, derive `Route`,
`Departure Hour` and `Delay in Mins`. -/
def enrichRow (r : RawRow) : CleanRow :=
  let jd := parseDate r.journeyDateRaw
  let dep := combineDatetime jd r.departureTimeRaw
  let arr := combineDatetime jd r.arrivalTimeRaw
  let act := combineDatetime jd r.actualArrivalTimeRaw
  { purchaseDate := parseDate r.purchaseDateRaw
    journeyDate := jd
    departureDatetime := dep
    arrivalDatetime := arr
    actualArrivalDatetime := act
    departureStation := r.departureStation
    arrivalDestination := r.arrivalDestination
    railcard := r.railcard.getD ("None")
    reasonForDelay := r.reasonForDelay.getD ("On Time")
    ticketClass := r.ticketClass
    ticketType := r.ticketType
    purchaseType := r.purchaseType
    journeyStatus := r.journeyStatus
    price := r.price
    route := r.departureStation ++ " to " ++ r.arrivalDestination
    departureHour := dep.map (fun x => x.time.hour)
    delayInMins :=
      match act, arr with
      | some a, some b => some (timeToMinutes a.time - timeToMinutes b.time)
      | _, _ => none }

/-- Insert a rational into a sorted list (ascending). -/
def insertSorted (x : ℚ) : List ℚ → List ℚ
  | [] => [x]
  | y :: ys => if x ≤ y then x :: y :: ys else y :: insertSorted x ys

/-- Sort a list of rationals ascending (insertion sort). -/
def sortRats (xs : List ℚ) : List ℚ :=
  xs.foldr insertSorted []

/-- Pandas `Series.quantile(q)` with its default linear interpolation: sort
the values, take position `(n-1)*q`, interpolating between the two
neighbouring order statistics. -/
def quantile (q : ℚ) (xs : List ℚ) : ℚ :=
  match sortRats xs with
  | [] => 0
  | s =>
    let pos : ℚ := ((s.length : ℚ) - 1) * q
    let i : Nat := pos.floor.toNat
    let lo := s.getD i 0
    let hi := s.getD (i + 1) lo
    lo + (pos - (i : ℚ)) * (hi - lo)

/-- The IQR outlier band of `load_data` step 4:
`[Q1 - 1.5*IQR, Q3 + 1.5*IQR]` over a price distribution. -/
def iqrBounds (prices : List ℚ) : ℚ × ℚ :=
  let q1 := quantile (1/4) prices
  let q3 := quantile (3/4) prices
  let iqr := q3 - q1
  (q1 - 3/2 * iqr, q3 + 3/2 * iqr)

/-- Step 4 of `load_data`: keep exactly the rows whose price lies inside the
IQR band computed from the whole (pre-filter) price column. -/
def removeOutliers (rows : List CleanRow) : List CleanRow :=
  let b := iqrBounds (rows.map CleanRow.price)
  rows.filter (fun r => decide (b.1 ≤ r.price) && decide (r.price ≤ b.2))

/-- First row (by index, starting at `start`) whose date field fails to
parse, together with its raw text. -/
def firstBadDateAux (field : RawRow → String) (start : Nat) :
    List RawRow → Option (Nat × String)
  | [] => none
  | r :: rs =>
    if parseDate (field r) = none then some (start, field r)
    else firstBadDateAux field (start + 1) rs

/-- First row whose date field fails to parse, if any. -/
def firstBadDate (field : RawRow → String) (rows : List RawRow) :
    Option (Nat × String) :=
  firstBadDateAux field 0 rows

/-- The loader `load_data` (file reading aside): fill missing values,
parse the two date columns — failing the whole load on the first value
matching neither accepted form, as `pd.to_datetime(format='mixed')`
raises — then combine timestamps, derive features and drop price
outliers.  Returns the cleaned table or the load-time error. -/
def load_data (rows : List RawRow) : Except LoadError (List CleanRow) :=
  match firstBadDate RawRow.purchaseDateRaw rows with
  | some (i, raw) => .error (.malformedDate i ("Date of Purchase") raw)
  | none =>
    match firstBadDate RawRow.journeyDateRaw rows with
    | some (i, raw) => .error (.malformedDate i ("Date of Journey") raw)
    | none => .ok (removeOutliers (rows.map enrichRow))

/-! ## The filter helper (`create_interactive_filters`, lines 124–135)

The widget layer supplies four selected strings, each either a concrete
category value or the sentinel `'None'` meaning "no constraint".  Only the
filtering section is modelled; widget construction is presentation. -/

/-- The four selection criteria of `create_interactive_filters`:
ticket class, ticket type, purchase type, journey status.  The string
`"None"` is the unset sentinel. -/
structure FilterCriteria where
  classFilter : String
  typeFilter : String
  purchaseFilter : String
  statusFilter : String
deriving DecidableEq, Repr

/-- One step of the filtering section of `create_interactive_filters`:
`filtered_df = filtered_df[filtered_df[col] == sel]`, guarded by the
sentinel test `if sel != 'None'`. -/
def filterStep (sel : String) (col : CleanRow → String)
    (df : List CleanRow) : List CleanRow :=
  if sel = "None" then df else df.filter (fun r => col r == sel)

/-- The filtering section of `create_interactive_filters` (lines 124–135):
the four guarded equality filters applied in sequence. -/
def applyFilters (df : List CleanRow) (c : FilterCriteria) : List CleanRow :=
  filterStep c.statusFilter (fun r => r.journeyStatus)
    (filterStep c.purchaseFilter (fun r => r.purchaseType)
      (filterStep c.typeFilter (fun r => r.ticketType)
        (filterStep c.classFilter (fun r => r.ticketClass) df)))

/-- One row satisfies the criteria record: every set criterion is an exact
categorical match, composed with logical AND (the spec's description of
filtering, used to characterize `applyFilters`). -/
def matchesCriteria (c : FilterCriteria) (r : CleanRow) : Bool :=
  (c.classFilter == "None" || r.ticketClass == c.classFilter) &&
  (c.typeFilter == "None" || r.ticketType == c.typeFilter) &&
  (c.purchaseFilter == "None" || r.purchaseType == c.purchaseFilter) &&
  (c.statusFilter == "None" || r.journeyStatus == c.statusFilter)

/-- The criteria record with every filter unset. -/
def noCriteria : FilterCriteria :=
  { classFilter := "None", typeFilter := "None"
    purchaseFilter := "None", statusFilter := "None" }

/-! ## Aggregation operations

`value_counts().nlargest(n)` (top routes, delay reasons) and
`groupby(col)[val].sum()` (revenue views), modelled over row lists. -/

/-- Distinct values of a list in order of first occurrence, skipping any
already in `seen` (accumulator form). -/
def firstOccurrencesAux (seen : List String) : List String → List String
  | [] => []
  | x :: xs =>
    if x ∈ seen then firstOccurrencesAux seen xs
    else x :: firstOccurrencesAux (x :: seen) xs

/-- Distinct values of a list in order of first occurrence. -/
def firstOccurrences (l : List String) : List String :=
  firstOccurrencesAux [] l

/-- Index of the first occurrence of `v` in a list (length if absent). -/
def firstIdx (v : String) : List String → Nat
  | [] => 0
  | x :: xs => if v = x then 0 else firstIdx v xs + 1

/-- Insert a (value, count) pair into a list sorted by count descending,
placing the new pair before any pair of equal count (the new pair comes
from an earlier position, so this keeps the sort stable). -/
def insertPair (x : String × Nat) : List (String × Nat) → List (String × Nat)
  | [] => [x]
  | y :: ys => if y.2 ≤ x.2 then x :: y :: ys else y :: insertPair x ys

/-- Stable sort of (value, count) pairs by count descending. -/
def sortPairs (l : List (String × Nat)) : List (String × Nat) :=
  l.foldr insertPair []

/-- Model of `subset[column].value_counts().nlargest(n)`: occurrence counts of each
distinct value of `column` in `subset`, the top `n` by count descending,
ties resolved by first-encountered order (pandas' stable tie behaviour). -/
def topNByCount (subset : List CleanRow) (column : CleanRow → String)
    (n : Nat) : List (String × Nat) :=
  let values := subset.map column
  (sortPairs ((firstOccurrences values).map
    (fun v => (v, values.count v)))).take n

/-- Model of `table.groupby(groupColumn)[valueColumn].sum()`: one (group, sum)
entry per distinct value of `groupColumn`. -/
def sumByGroup (t : List CleanRow) (groupColumn : CleanRow → String)
    (valueColumn : CleanRow → ℚ) : List (String × ℚ) :=
  (firstOccurrences (t.map groupColumn)).map
    (fun k => (k, ((t.filter (fun r => groupColumn r == k)).map
      valueColumn).sum))

/-- Model of `table[groupColumn].value_counts()` without ordering: one
(group, count) entry per distinct value of `groupColumn`. -/
def countByGroup (t : List CleanRow) (groupColumn : CleanRow → String) :
    List (String × Nat) :=
  (firstOccurrences (t.map groupColumn)).map
    (fun k => (k, (t.filter (fun r => groupColumn r == k)).length))

/-! ## Concrete rows for the spec's scenarios -/

/-- A raw row with well-formed dates and times, parameterized by ticket
class and price; `Railcard` and `Reason for Delay` are missing. -/
def sampleRaw (cls : String) (p : ℚ) : RawRow :=
  { purchaseDateRaw := "2023-12-30"
    journeyDateRaw := "2024-01-01"
    departureTimeRaw := "08:00:00"
    arrivalTimeRaw := "09:00:00"
    actualArrivalTimeRaw := "09:05:00"
    departureStation := "London Paddington"
    arrivalDestination := "Reading"
    railcard := none
    reasonForDelay := none
    ticketClass := cls
    ticketType := "Advance"
    purchaseType := "Online"
    journeyStatus := "On Time"
    price := p }

/-- The outlier scenario: a price column `[10,12,11,13,1000]`. -/
def outlierRows : List RawRow :=
  [sampleRaw ("Standard") 10, sampleRaw ("Standard") 12,
   sampleRaw ("Standard") 11, sampleRaw ("Standard") 13,
   sampleRaw ("Standard") 1000]

/-- A raw row whose purchase date matches neither accepted form. -/
def badDateRow : RawRow :=
  { sampleRaw ("Standard") 10 with purchaseDateRaw := "junk" }

/-- A raw row with a malformed departure time but well-formed dates. -/
def badTimeRow : RawRow :=
  { sampleRaw ("Standard") 10 with
      departureTimeRaw := "notatime"
      actualArrivalTimeRaw := "25:99" }

/-- The top-N scenario: six rows whose ticket classes read
`["A","A","B","C","C","C"]`. -/
def topNRows : List CleanRow :=
  (["A", "A", "B", "C", "C", "C"].map (fun v => sampleRaw v 10)).map enrichRow

/-! ## Lemmas about the filter helper -/

/-- One selectbox step of `create_interactive_filters` as a single filter:
the sentinel test folds into the row predicate. -/
theorem filterStep_eq_filter (s : String) (g : CleanRow → String)
    (df : List CleanRow) :
    filterStep s g df = df.filter (fun r => s == "None" || g r == s) := by
  unfold filterStep
  by_cases h : s = "None"
  · subst h; simp
  · rw [if_neg h]
    refine (List.filter_congr ?_).symm
    intro r _
    have hs : (s == "None") = false := by
      simp [h]
    simp [hs]

/-- The sequential filtering of `create_interactive_filters` equals one
filter by the conjunction of exact matches over the set criteria. -/
theorem applyFilters_eq_filter (df : List CleanRow) (c : FilterCriteria) :
    applyFilters df c = df.filter (matchesCriteria c) := by
  unfold applyFilters
  rw [filterStep_eq_filter c.classFilter (fun r => r.ticketClass) df,
      filterStep_eq_filter c.typeFilter (fun r => r.ticketType),
      filterStep_eq_filter c.purchaseFilter (fun r => r.purchaseType),
      filterStep_eq_filter c.statusFilter (fun r => r.journeyStatus),
      List.filter_filter, List.filter_filter, List.filter_filter]
  refine List.filter_congr ?_
  intro r _
  simp only [matchesCriteria]
  cases c.classFilter == "None" <;> cases r.ticketClass == c.classFilter <;>
    cases c.typeFilter == "None" <;> cases r.ticketType == c.typeFilter <;>
    cases c.purchaseFilter == "None" <;> cases r.purchaseType == c.purchaseFilter <;>
    cases c.statusFilter == "None" <;> cases r.journeyStatus == c.statusFilter <;> rfl

/-! ## Lemmas about the loader -/

theorem firstBadDateAux_eq_none_iff (f : RawRow → String) (s : Nat)
    (l : List RawRow) :
    firstBadDateAux f s l = none ↔ ∀ r ∈ l, parseDate (f r) ≠ none := by
  induction l generalizing s with
  | nil => simp [firstBadDateAux]
  | cons r rs ih =>
    by_cases h : parseDate (f r) = none
    · simp [firstBadDateAux, h]
    · simp [firstBadDateAux, h, ih (s + 1)]

theorem firstBadDateAux_eq_some (f : RawRow → String) (s : Nat)
    (l : List RawRow) (i : Nat) (raw : String)
    (h : firstBadDateAux f s l = some (i, raw)) :
    ∃ j r, l.get? j = some r ∧ i = s + j ∧ raw = f r ∧ parseDate raw = none := by
  induction l generalizing s with
  | nil => simp [firstBadDateAux] at h
  | cons r rs ih =>
    by_cases hr : parseDate (f r) = none
    · rw [firstBadDateAux, if_pos hr] at h
      obtain ⟨hi, hraw⟩ := Prod.mk.injEq .. ▸ Option.some.injEq .. ▸ h
      exact ⟨0, r, rfl, by omega, hraw.symm, hraw ▸ hr⟩
    · rw [firstBadDateAux, if_neg hr] at h
      obtain ⟨j, r', hj, hi, hraw, hbad⟩ := ih (s + 1) h
      exact ⟨j + 1, r', by simpa using hj, by omega, hraw, hbad⟩

/-- A successful load returns exactly the enriched table with price
outliers removed. -/
theorem load_data_ok_eq (rows : List RawRow) (cleaned : List CleanRow)
    (h : load_data rows = .ok cleaned) :
    cleaned = removeOutliers (rows.map enrichRow) := by
  unfold load_data at h
  cases hp : firstBadDate RawRow.purchaseDateRaw rows with
  | some v => rw [hp] at h; cases h
  | none =>
    rw [hp] at h
    cases hj : firstBadDate RawRow.journeyDateRaw rows with
    | some v => rw [hj] at h; cases h
    | none => rw [hj] at h; cases h; rfl

/-- The load succeeds iff every purchase and journey date parses. -/
theorem load_data_ok_iff (rows : List RawRow) :
    (∃ cleaned, load_data rows = .ok cleaned) ↔
      ∀ r ∈ rows, parseDate r.purchaseDateRaw ≠ none ∧
        parseDate r.journeyDateRaw ≠ none := by
  unfold load_data
  cases hp : firstBadDate RawRow.purchaseDateRaw rows with
  | some v =>
    simp only [hp]
    obtain ⟨j, r, hj, _, hraw, hbad⟩ :=
      firstBadDateAux_eq_some _ _ _ v.1 v.2 (by simpa [firstBadDate] using hp)
    constructor
    · rintro ⟨c, hc⟩; cases hc
    · intro hall
      exact absurd (hraw ▸ hbad) (hall r (List.get?_mem hj)).1
  | none =>
    have hpall := (firstBadDateAux_eq_none_iff _ 0 rows).mp hp
    cases hj : firstBadDate RawRow.journeyDateRaw rows with
    | some v =>
      simp only [hp, hj]
      obtain ⟨j, r, hjr, _, hraw, hbad⟩ :=
        firstBadDateAux_eq_some _ _ _ v.1 v.2 (by simpa [firstBadDate] using hj)
      constructor
      · rintro ⟨c, hc⟩; cases hc
      · intro hall
        exact absurd (hraw ▸ hbad) (hall r (List.get?_mem hjr)).2
    | none =>
      have hjall := (firstBadDateAux_eq_none_iff _ 0 rows).mp hj
      simp only [hp, hj]
      constructor
      · intro _ r hr; exact ⟨hpall r hr, hjall r hr⟩
      · intro _; exact ⟨_, rfl⟩

/-! ## Claims about the filter/aggregator -/

/-- C3: `applyFilters` retains exactly the rows passing an exact
categorical equality match for each set criterion, composed with AND;
with all criteria unset it returns the table unchanged; an empty result
is a valid outcome, occurring exactly when no row matches. -/
theorem claim_C3_applyFilters_exact_and (df : List CleanRow)
    (c : FilterCriteria) :
    applyFilters df c = df.filter (matchesCriteria c) ∧
      applyFilters df noCriteria = df ∧
      (applyFilters df c = [] ↔ ∀ r ∈ df, ¬matchesCriteria c r) := by
  refine ⟨applyFilters_eq_filter df c, ?_, ?_⟩
  · rw [applyFilters_eq_filter]
    have : ∀ r ∈ df, matchesCriteria noCriteria r = true := by
      intro r _; rfl
    rw [List.filter_congr this, List.filter_true]
  · rw [applyFilters_eq_filter]
    simp [List.filter_eq_nil_iff]

/-- C9: `applyFilters` commutes — applying criteria `A` then `B` equals
applying `B` then `A` (for any two criteria records, in particular ones
constraining distinct columns) — and is idempotent. -/
theorem claim_C9_applyFilters_commutes_idempotent (df : List CleanRow)
    (A B : FilterCriteria) :
    applyFilters (applyFilters df A) B = applyFilters (applyFilters df B) A ∧
      applyFilters (applyFilters df A) A = applyFilters df A := by
  constructor
  · rw [applyFilters_eq_filter, applyFilters_eq_filter,
        applyFilters_eq_filter, applyFilters_eq_filter,
        List.filter_filter, List.filter_filter]
    exact List.filter_congr (fun r _ => Bool.and_comm _ _)
  · rw [applyFilters_eq_filter, applyFilters_eq_filter, List.filter_filter]
    exact List.filter_congr (fun r _ => Bool.and_self _)

/-- C10: the subset returned by `applyFilters` is an order-preserving
subsequence of the input table: retained rows appear unchanged and in
their original relative order. -/
theorem claim_C10_applyFilters_sublist (df : List CleanRow)
    (c : FilterCriteria) :
    (applyFilters df c).Sublist df := by
  rw [applyFilters_eq_filter]
  exact List.filter_sublist df

/-! ## Claims about the loader -/

/-- C1: the cleaned table contains exactly the rows of the enriched
pre-filter table whose price lies within `[Q1 - 1.5*IQR, Q3 + 1.5*IQR]`,
with the quartiles computed once over the whole pre-filter price column;
on the price column `[10,12,11,13,1000]` the bounds exclude `1000` and
the other four rows survive in order. -/
theorem claim_C1_outlier_band (rows : List RawRow) (cleaned : List CleanRow)
    (h : load_data rows = .ok cleaned) :
    cleaned = (rows.map enrichRow).filter (fun r =>
        decide ((iqrBounds ((rows.map enrichRow).map CleanRow.price)).1 ≤ r.price) &&
        decide (r.price ≤ (iqrBounds ((rows.map enrichRow).map CleanRow.price)).2)) ∧
      (load_data outlierRows).toOption.map (fun l => l.map CleanRow.price) =
        some [10, 12, 11, 13] := by
  refine ⟨?_, by with_unfolding_all rfl⟩
  rw [load_data_ok_eq rows cleaned h]
  rfl

/-- Witness for C1 at the outlier scenario table. -/
theorem claim_C1_witness :
    removeOutliers (outlierRows.map enrichRow) =
      (outlierRows.map enrichRow).filter (fun r =>
        decide ((iqrBounds ((outlierRows.map enrichRow).map CleanRow.price)).1 ≤ r.price) &&
        decide (r.price ≤ (iqrBounds ((outlierRows.map enrichRow).map CleanRow.price)).2)) ∧
      (load_data outlierRows).toOption.map (fun l => l.map CleanRow.price) =
        some [10, 12, 11, 13] :=
  claim_C1_outlier_band outlierRows (removeOutliers (outlierRows.map enrichRow))
    (by with_unfolding_all rfl)

/-- C2: every row of the cleaned table comes from an input row, with
`railcard` the input value or `"None"` when missing, and `reasonForDelay`
the input value or `"On Time"` when missing (so both are never missing);
a row with both fields blank yields `"None"` and `"On Time"`. -/
theorem claim_C2_fill_missing (rows : List RawRow) (cleaned : List CleanRow)
    (h : load_data rows = .ok cleaned) :
    (∀ r ∈ cleaned, ∃ raw ∈ rows, r = enrichRow raw ∧
        r.railcard = raw.railcard.getD ("None") ∧
        r.reasonForDelay = raw.reasonForDelay.getD ("On Time")) ∧
      (enrichRow (sampleRaw ("Standard") 10)).railcard = "None" ∧
      (enrichRow (sampleRaw ("Standard") 10)).reasonForDelay = "On Time" := by
  refine ⟨?_, rfl, rfl⟩
  intro r hr
  rw [load_data_ok_eq rows cleaned h] at hr
  simp only [removeOutliers] at hr
  obtain ⟨raw, hraw, hEq⟩ := List.mem_map.mp (List.mem_filter.mp hr).1
  refine ⟨raw, hraw, hEq.symm, ?_, ?_⟩ <;> rw [← hEq] <;> rfl

/-- Witness for C2 at the outlier scenario table. -/
theorem claim_C2_witness :
    (enrichRow (sampleRaw ("Standard") 10)).railcard = "None" ∧
      (enrichRow (sampleRaw ("Standard") 10)).reasonForDelay = "On Time" :=
  (claim_C2_fill_missing outlierRows
    (removeOutliers (outlierRows.map enrichRow))
    (by with_unfolding_all rfl)).2

/-- C7: every row of the cleaned table has
`route = departureStation ++ " to " ++ arrivalStation`. -/
theorem claim_C7_route_concat (rows : List RawRow) (cleaned : List CleanRow)
    (h : load_data rows = .ok cleaned) :
    ∀ r ∈ cleaned,
      r.route = r.departureStation ++ " to " ++ r.arrivalDestination := by
  intro r hr
  rw [load_data_ok_eq rows cleaned h] at hr
  simp only [removeOutliers] at hr
  obtain ⟨raw, _, hEq⟩ := List.mem_map.mp (List.mem_filter.mp hr).1
  rw [← hEq]
  rfl

/-- Witness for C7 at the outlier scenario table. -/
theorem claim_C7_witness :
    (enrichRow (sampleRaw ("Standard") 10)).route =
      (enrichRow (sampleRaw ("Standard") 10)).departureStation ++ " to " ++
        (enrichRow (sampleRaw ("Standard") 10)).arrivalDestination :=
  claim_C7_route_concat outlierRows (removeOutliers (outlierRows.map enrichRow))
    (by with_unfolding_all rfl) (enrichRow (sampleRaw ("Standard") 10))
    (by
      have hlist : removeOutliers (outlierRows.map enrichRow) =
          [enrichRow (sampleRaw ("Standard") 10), enrichRow (sampleRaw ("Standard") 12),
           enrichRow (sampleRaw ("Standard") 11), enrichRow (sampleRaw ("Standard") 13)] := by
        with_unfolding_all rfl
      rw [hlist]
      exact List.mem_cons_self _ _)

/-- C5: the load fails — returning an error rather than any partial
table — iff some purchase or journey date value matches neither accepted
form, and the error is `malformedDate` carrying the row index, column
name and raw text of the offending record. -/
theorem claim_C5_malformed_date (rows : List RawRow) :
    ((∃ e, load_data rows = .error e) ↔
      ∃ r ∈ rows, parseDate r.purchaseDateRaw = none ∨
        parseDate r.journeyDateRaw = none) ∧
      (∀ i f raw, load_data rows = .error (.malformedDate i f raw) →
        ∃ r, rows.get? i = some r ∧
          ((f = "Date of Purchase" ∧ raw = r.purchaseDateRaw) ∨
           (f = "Date of Journey" ∧ raw = r.journeyDateRaw)) ∧
          parseDate raw = none) := by
  have hok := load_data_ok_iff rows
  constructor
  · constructor
    · rintro ⟨e, he⟩
      by_contra hno
      push_neg at hno
      obtain ⟨c, hc⟩ := hok.mpr (fun r hr => hno r hr)
      rw [he] at hc
      exact Except.noConfusion hc
    · rintro ⟨r, hr, hbad⟩
      cases hload : load_data rows with
      | error e => exact ⟨e, rfl⟩
      | ok c =>
        obtain ⟨hp, hj⟩ := hok.mp ⟨c, hload⟩ r hr
        cases hbad with
        | inl hb => exact absurd hb hp
        | inr hb => exact absurd hb hj
  · intro i f raw h
    unfold load_data at h
    cases hp : firstBadDate RawRow.purchaseDateRaw rows with
    | some v =>
      obtain ⟨i0, raw0⟩ := v
      rw [hp] at h
      obtain ⟨j, r, hj, hi, hraw, hbad⟩ :=
        firstBadDateAux_eq_some _ _ _ i0 raw0 hp
      cases h
      have hji : j = i := by omega
      subst hji
      exact ⟨r, hj, Or.inl ⟨rfl, hraw⟩, hbad⟩
    | none =>
      rw [hp] at h
      cases hjd : firstBadDate RawRow.journeyDateRaw rows with
      | some v =>
        obtain ⟨i0, raw0⟩ := v
        rw [hjd] at h
        obtain ⟨j, r, hj, hi, hraw, hbad⟩ :=
          firstBadDateAux_eq_some _ _ _ i0 raw0 hjd
        cases h
        have hji : j = i := by omega
        subst hji
        exact ⟨r, hj, Or.inr ⟨rfl, hraw⟩, hbad⟩
      | none =>
        rw [hjd] at h
        exact Except.noConfusion h

/-- Witness for C5 at a one-row table with an unparseable purchase date. -/
theorem claim_C5_witness : parseDate ("junk") = none :=
  Exists.elim ((claim_C5_malformed_date [badDateRow]).2 0 ("Date of Purchase")
    "junk" (by with_unfolding_all rfl)) (fun r hr => hr.2.2)

/-- C6: malformed time-of-day strings never abort the load — it succeeds
whenever the two date columns parse — and a row whose date/time
combination fails to parse gets an undefined timestamp, with the derived
fields (`departureHour`, `delayInMins`) undefined as well. -/
theorem claim_C6_time_coerce (rows : List RawRow) :
    ((∀ r ∈ rows, parseDate r.purchaseDateRaw ≠ none ∧
        parseDate r.journeyDateRaw ≠ none) →
      ∃ cleaned, load_data rows = .ok cleaned) ∧
      (∀ raw : RawRow,
        (combineDatetime (parseDate raw.journeyDateRaw) raw.departureTimeRaw = none →
          (enrichRow raw).departureDatetime = none ∧
          (enrichRow raw).departureHour = none) ∧
        (combineDatetime (parseDate raw.journeyDateRaw) raw.arrivalTimeRaw = none →
          (enrichRow raw).arrivalDatetime = none ∧
          (enrichRow raw).delayInMins = none) ∧
        (combineDatetime (parseDate raw.journeyDateRaw) raw.actualArrivalTimeRaw = none →
          (enrichRow raw).actualArrivalDatetime = none ∧
          (enrichRow raw).delayInMins = none)) := by
  refine ⟨(load_data_ok_iff rows).mpr, ?_⟩
  intro raw
  refine ⟨fun h => ⟨by simp [enrichRow, h], by simp [enrichRow, h]⟩,
          fun h => ⟨by simp [enrichRow, h], ?_⟩,
          fun h => ⟨by simp [enrichRow, h], by simp [enrichRow, h]⟩⟩
  simp only [enrichRow, h]
  cases combineDatetime (parseDate raw.journeyDateRaw) raw.actualArrivalTimeRaw <;> rfl

/-- Witness for C6 at a one-row table with a malformed departure time. -/
theorem claim_C6_witness :
    (load_data [badTimeRow]).toOption.isSome = true ∧
      (enrichRow badTimeRow).departureDatetime = none ∧
      (enrichRow badTimeRow).departureHour = none :=
  ⟨Exists.elim ((claim_C6_time_coerce [badTimeRow]).1 (by decide))
      (fun c hc => by rw [hc]; rfl),
   ((claim_C6_time_coerce [badTimeRow]).2 badTimeRow).1
      (by with_unfolding_all rfl)⟩

/-! ## Lemmas about the aggregation operations -/

theorem mem_firstOccurrencesAux_not_seen {v : String} {seen l : List String}
    (h : v ∈ firstOccurrencesAux seen l) : v ∉ seen := by
  induction l generalizing seen with
  | nil => simp [firstOccurrencesAux] at h
  | cons x xs ih =>
    by_cases hx : x ∈ seen
    · rw [firstOccurrencesAux, if_pos hx] at h
      exact ih h
    · rw [firstOccurrencesAux, if_neg hx] at h
      cases List.mem_cons.mp h with
      | inl he => exact he ▸ hx
      | inr ht => exact fun hv => (ih ht) (List.mem_cons_of_mem _ hv)

theorem mem_firstOccurrencesAux {v : String} {seen l : List String}
    (hv : v ∈ l) (hs : v ∉ seen) : v ∈ firstOccurrencesAux seen l := by
  induction l generalizing seen with
  | nil => simp at hv
  | cons x xs ih =>
    by_cases hx : x ∈ seen
    · rw [firstOccurrencesAux, if_pos hx]
      cases List.mem_cons.mp hv with
      | inl he => exact absurd (he ▸ hx) hs
      | inr ht => exact ih ht hs
    · rw [firstOccurrencesAux, if_neg hx]
      cases List.mem_cons.mp hv with
      | inl he => exact he ▸ List.mem_cons_self _ _
      | inr ht =>
        by_cases hvx : v = x
        · exact hvx ▸ List.mem_cons_self _ _
        · refine List.mem_cons_of_mem _ (ih ht ?_)
          simp [hvx, hs]

theorem nodup_firstOccurrencesAux (seen l : List String) :
    (firstOccurrencesAux seen l).Nodup := by
  induction l generalizing seen with
  | nil => simp [firstOccurrencesAux]
  | cons x xs ih =>
    by_cases hx : x ∈ seen
    · rw [firstOccurrencesAux, if_pos hx]; exact ih seen
    · rw [firstOccurrencesAux, if_neg hx]
      refine List.Nodup.cons ?_ (ih (x :: seen))
      intro hmem
      exact mem_firstOccurrencesAux_not_seen hmem (List.mem_cons_self _ _)

theorem firstIdx_cons_ne {v x : String} (xs : List String) (h : v ≠ x) :
    firstIdx v (x :: xs) = firstIdx v xs + 1 := by
  simp [firstIdx, h]

theorem pairwise_firstIdx_firstOccurrencesAux (l : List String) :
    ∀ seen, (firstOccurrencesAux seen l).Pairwise
      (fun a b => firstIdx a l < firstIdx b l) := by
  induction l with
  | nil => intro seen; simp [firstOccurrencesAux]
  | cons x xs ih =>
    intro seen
    by_cases hx : x ∈ seen
    · rw [firstOccurrencesAux, if_pos hx]
      refine (ih seen).imp_of_mem ?_
      intro a b ha hb hab
      have hax : a ≠ x := fun h =>
        (mem_firstOccurrencesAux_not_seen ha) (h ▸ hx)
      have hbx : b ≠ x := fun h =>
        (mem_firstOccurrencesAux_not_seen hb) (h ▸ hx)
      rw [firstIdx_cons_ne xs hax, firstIdx_cons_ne xs hbx]
      omega
    · rw [firstOccurrencesAux, if_neg hx]
      refine List.Pairwise.cons ?_ ?_
      · intro b hb
        have hbx : b ≠ x := fun h =>
          (mem_firstOccurrencesAux_not_seen hb) (h ▸ List.mem_cons_self _ _)
        rw [firstIdx_cons_ne xs hbx]
        simp [firstIdx]
      · refine (ih (x :: seen)).imp_of_mem ?_
        intro a b ha hb hab
        have hax : a ≠ x := fun h =>
          (mem_firstOccurrencesAux_not_seen ha) (h ▸ List.mem_cons_self _ _)
        have hbx : b ≠ x := fun h =>
          (mem_firstOccurrencesAux_not_seen hb) (h ▸ List.mem_cons_self _ _)
        rw [firstIdx_cons_ne xs hax, firstIdx_cons_ne xs hbx]
        omega

theorem nodup_firstOccurrences (l : List String) : (firstOccurrences l).Nodup :=
  nodup_firstOccurrencesAux [] l

theorem mem_firstOccurrences {v : String} {l : List String} (h : v ∈ l) :
    v ∈ firstOccurrences l :=
  mem_firstOccurrencesAux h (List.not_mem_nil v)

theorem pairwise_firstIdx_firstOccurrences (l : List String) :
    (firstOccurrences l).Pairwise (fun a b => firstIdx a l < firstIdx b l) :=
  pairwise_firstIdx_firstOccurrencesAux l []

theorem insertPair_perm (x : String × Nat) (l : List (String × Nat)) :
    (insertPair x l).Perm (x :: l) := by
  induction l with
  | nil => exact List.Perm.refl _
  | cons y ys ih =>
    rw [insertPair]
    by_cases hy : y.2 ≤ x.2
    · rw [if_pos hy]
    · rw [if_neg hy]
      exact (ih.cons y).trans (List.Perm.swap x y ys)

theorem sortPairs_perm (l : List (String × Nat)) : (sortPairs l).Perm l := by
  induction l with
  | nil => exact List.Perm.refl _
  | cons x xs ih =>
    exact (insertPair_perm x (sortPairs xs)).trans (ih.cons x)

theorem mem_insertPair {z x : String × Nat} {l : List (String × Nat)} :
    z ∈ insertPair x l ↔ z = x ∨ z ∈ l := by
  rw [(insertPair_perm x l).mem_iff, List.mem_cons]

/-- Inserting a pair whose original position precedes every position in a
stably sorted list keeps it sorted by count descending with ties by
original position. -/
theorem pairwise_insertPair (idx : String × Nat → Nat) (x : String × Nat)
    (l : List (String × Nat)) (hx : ∀ z ∈ l, idx x < idx z)
    (hl : l.Pairwise (fun a b => b.2 < a.2 ∨ (b.2 = a.2 ∧ idx a < idx b))) :
    (insertPair x l).Pairwise
      (fun a b => b.2 < a.2 ∨ (b.2 = a.2 ∧ idx a < idx b)) := by
  induction l with
  | nil => simp [insertPair]
  | cons y ys ih =>
    rw [insertPair]
    by_cases hy : y.2 ≤ x.2
    · rw [if_pos hy]
      refine List.Pairwise.cons ?_ hl
      intro z hz
      cases List.mem_cons.mp hz with
      | inl hzy =>
        subst hzy
        rcases lt_or_eq_of_le hy with hlt | heq
        · exact Or.inl hlt
        · exact Or.inr ⟨heq, hx z (List.mem_cons_self _ _)⟩
      | inr hzys =>
        rcases List.rel_of_pairwise_cons hl hzys with hlt | ⟨heq, _⟩
        · rcases lt_or_eq_of_le (le_of_lt (lt_of_lt_of_le hlt hy)) with h2 | h2
          · exact Or.inl h2
          · exact Or.inr ⟨h2, hx z (List.mem_cons_of_mem _ hzys)⟩
        · rcases lt_or_eq_of_le (heq ▸ hy) with h2 | h2
          · exact Or.inl h2
          · exact Or.inr ⟨h2, hx z (List.mem_cons_of_mem _ hzys)⟩
    · rw [if_neg hy]
      push_neg at hy
      refine List.Pairwise.cons ?_
        (ih (fun z hz => hx z (List.mem_cons_of_mem _ hz)) hl.of_cons)
      intro z hz
      cases mem_insertPair.mp hz with
      | inl hzx => exact Or.inl (hzx ▸ hy)
      | inr hzys => exact List.rel_of_pairwise_cons hl hzys

/-- Stable sort of pairs whose original positions are strictly increasing:
the result is ordered by count descending, ties by original position. -/
theorem pairwise_sortPairs (idx : String × Nat → Nat)
    (l : List (String × Nat)) (h : l.Pairwise (fun a b => idx a < idx b)) :
    (sortPairs l).Pairwise
      (fun a b => b.2 < a.2 ∨ (b.2 = a.2 ∧ idx a < idx b)) := by
  induction l with
  | nil => simp [sortPairs]
  | cons x xs ih =>
    refine pairwise_insertPair idx x (sortPairs xs) ?_ (ih h.of_cons)
    intro z hz
    exact List.rel_of_pairwise_cons h ((sortPairs_perm xs).mem_iff.mp hz)

theorem sum_map_filter_sub {R M : Type} [AddCommMonoid M] (p : R → Bool)
    (v : R → M) (t : List R) :
    ((t.filter p).map v).sum + ((t.filter (fun r => !p r)).map v).sum =
      (t.map v).sum := by
  induction t with
  | nil => simp
  | cons r rs ih =>
    by_cases h : p r
    · have h1 : List.filter p (r :: rs) = r :: List.filter p rs := by
        simp [List.filter_cons, h]
      have h2 : List.filter (fun a => !p a) (r :: rs) =
          List.filter (fun a => !p a) rs := by
        simp [List.filter_cons, h]
      rw [h1, h2, List.map_cons, List.sum_cons, add_assoc, ih,
          List.map_cons, List.sum_cons]
    · have h' : p r = false := by simp [h]
      have h1 : List.filter p (r :: rs) = List.filter p rs := by
        simp [List.filter_cons, h']
      have h2 : List.filter (fun a => !p a) (r :: rs) =
          r :: List.filter (fun a => !p a) rs := by
        simp [List.filter_cons, h']
      rw [h1, h2, List.map_cons, List.sum_cons, add_left_comm, ih,
          List.map_cons, List.sum_cons]

/-- Summing a grouped quantity over a duplicate-free list of keys covering
every row recovers the total over the table. -/
theorem sum_map_filter_partition {R M : Type} [AddCommMonoid M]
    (key : R → String) (v : R → M) (keys : List String) :
    ∀ t : List R, keys.Nodup → (∀ r ∈ t, key r ∈ keys) →
      (keys.map (fun k =>
        ((t.filter (fun r => key r == k)).map v).sum)).sum = (t.map v).sum := by
  induction keys with
  | nil =>
    intro t _ hcov
    have ht : t = [] :=
      List.eq_nil_iff_forall_not_mem.mpr (fun r hr => by simpa using hcov r hr)
    subst ht
    simp
  | cons k ks ih =>
    intro t hnd hcov
    rw [List.map_cons, List.sum_cons]
    have hstep : (ks.map (fun k2 =>
        ((t.filter (fun r => key r == k2)).map v).sum)).sum
        = (ks.map (fun k2 =>
          (((t.filter (fun r => !(key r == k))).filter
            (fun r => key r == k2)).map v).sum)).sum := by
      refine congrArg List.sum (List.map_congr_left ?_)
      intro k2 hk2
      have hne : k2 ≠ k := fun h => (List.nodup_cons.mp hnd).1 (h ▸ hk2)
      rw [List.filter_filter]
      refine congrArg _ (congrArg _ (List.filter_congr ?_))
      intro r _
      by_cases hk : key r = k2
      · simp [hk, hne]
      · simp [hk]
    rw [hstep, ih _ (List.nodup_cons.mp hnd).2 ?_]
    · exact sum_map_filter_sub (fun r => key r == k) v t
    · intro r hr
      have hrt : r ∈ t := List.mem_of_mem_filter hr
      have hcond := List.of_mem_filter hr
      have hkr : key r ≠ k := by simpa using hcond
      cases List.mem_cons.mp (hcov r hrt) with
      | inl h => exact absurd h hkr
      | inr h => exact h

theorem sum_map_one {α : Type} (l : List α) :
    (l.map (fun _ => (1 : Nat))).sum = l.length := by
  induction l with
  | nil => rfl
  | cons x xs ih => simp [ih, Nat.add_comm]

/-- The occurrence counts of the distinct values of a list sum to its
length. -/
theorem sum_counts_firstOccurrences (values : List String) :
    ((firstOccurrences values).map (fun v => values.count v)).sum =
      values.length := by
  have hpart := sum_map_filter_partition id (fun _ => (1 : Nat))
    (firstOccurrences values) values (nodup_firstOccurrences values)
    (fun r hr => mem_firstOccurrences hr)
  rw [sum_map_one] at hpart
  rw [← hpart]
  refine congrArg List.sum (List.map_congr_left ?_)
  intro k _
  rw [sum_map_one, List.count, List.countP_eq_length_filter]
  rfl

/-! ## Claims about the aggregation operations -/

/-- C4: `topNByCount` returns at most `n` entries, ordered by count
descending with ties broken by first-encountered order of the value in
the subset, and its counts sum to at most the subset's row count; with
`n = 2` on column values `["A","A","B","C","C","C"]` it returns
`[("C",3),("A",2)]`. -/
theorem claim_C4_topNByCount (subset : List CleanRow)
    (column : CleanRow → String) (n : Nat) :
    (topNByCount subset column n).length ≤ n ∧
      (topNByCount subset column n).Pairwise (fun a b => b.2 < a.2 ∨
        (b.2 = a.2 ∧ firstIdx a.1 (subset.map column) <
          firstIdx b.1 (subset.map column))) ∧
      ((topNByCount subset column n).map Prod.snd).sum ≤ subset.length ∧
      topNByCount topNRows CleanRow.ticketClass 2 = [("C", 3), ("A", 2)] := by
  refine ⟨?_, ?_, ?_, by with_unfolding_all rfl⟩
  · simp only [topNByCount]
    rw [List.length_take]
    exact min_le_left _ _
  · simp only [topNByCount]
    refine List.Pairwise.sublist (List.take_sublist _ _) ?_
    refine pairwise_sortPairs
      (fun p => firstIdx p.1 (subset.map column)) _ ?_
    exact List.Pairwise.map _ (fun a b h => h)
      (pairwise_firstIdx_firstOccurrences (subset.map column))
  · simp only [topNByCount]
    have hsum : ((sortPairs ((firstOccurrences (subset.map column)).map
        (fun v => (v, (subset.map column).count v)))).map Prod.snd).sum =
          subset.length := by
      rw [((sortPairs_perm _).map Prod.snd).sum_eq, List.map_map]
      have heq : (Prod.snd ∘ fun v => (v, (subset.map column).count v)) =
          fun v => (subset.map column).count v := rfl
      rw [heq, sum_counts_firstOccurrences, List.length_map]
    rw [← hsum]
    calc ((List.take n (sortPairs ((firstOccurrences (subset.map column)).map
          (fun v => (v, (subset.map column).count v))))).map Prod.snd).sum
        ≤ ((List.take n (sortPairs ((firstOccurrences (subset.map column)).map
            (fun v => (v, (subset.map column).count v))))).map Prod.snd).sum +
          ((List.drop n (sortPairs ((firstOccurrences (subset.map column)).map
            (fun v => (v, (subset.map column).count v))))).map Prod.snd).sum :=
          Nat.le_add_right _ _
      _ = ((List.take n (sortPairs ((firstOccurrences (subset.map column)).map
            (fun v => (v, (subset.map column).count v)))) ++
          List.drop n (sortPairs ((firstOccurrences (subset.map column)).map
            (fun v => (v, (subset.map column).count v))))).map Prod.snd).sum := by
          rw [List.map_append, List.sum_append]
      _ = ((sortPairs ((firstOccurrences (subset.map column)).map
            (fun v => (v, (subset.map column).count v)))).map Prod.snd).sum := by
          rw [List.take_append_drop]

/-- C8: the per-group totals of `sumByGroup` sum to the total of the value
column over the whole table, and the counts of `countByGroup` sum to the
table's row count. -/
theorem claim_C8_group_conservation (t : List CleanRow)
    (groupColumn : CleanRow → String) (valueColumn : CleanRow → ℚ) :
    ((sumByGroup t groupColumn valueColumn).map Prod.snd).sum =
        (t.map valueColumn).sum ∧
      ((countByGroup t groupColumn).map Prod.snd).sum = t.length := by
  constructor
  · unfold sumByGroup
    rw [List.map_map]
    have heq : (Prod.snd ∘ fun k =>
        (k, ((t.filter (fun r => groupColumn r == k)).map valueColumn).sum)) =
        fun k => ((t.filter (fun r => groupColumn r == k)).map
          valueColumn).sum := rfl
    rw [heq]
    exact sum_map_filter_partition groupColumn valueColumn _ t
      (nodup_firstOccurrences _)
      (fun r hr => mem_firstOccurrences (List.mem_map_of_mem _ hr))
  · unfold countByGroup
    rw [List.map_map]
    have heq : (Prod.snd ∘ fun k =>
        (k, (t.filter (fun r => groupColumn r == k)).length)) =
        fun k => (t.filter (fun r => groupColumn r == k)).length := rfl
    rw [heq]
    have hpart := sum_map_filter_partition groupColumn (fun _ => (1 : Nat))
      (firstOccurrences (t.map groupColumn)) t (nodup_firstOccurrences _)
      (fun r hr => mem_firstOccurrences (List.mem_map_of_mem _ hr))
    rw [sum_map_one] at hpart
    rw [← hpart]
    refine congrArg List.sum (List.map_congr_left ?_)
    intro k _
    rw [sum_map_one]

end UKRails
